import Mathlib

/-!
Shallow embedding of the roster storage layer (`db.py`) of this repository,
together with theorems settling the frozen claims about it.

The SQLite tables are modelled as Lean structures holding lists of rows
(row order stands for SQLite's unspecified scan order; `fetchone` without an
`ORDER BY` is modelled as the first matching row).  `AUTOINCREMENT` primary
keys are modelled by explicit counters.  `REAL` columns are modelled by `ℚ`
(the code only ever stores integers and halves), `INTEGER` by `ℕ`/`ℤ`, and
nullable columns by `Option`.
-/

namespace Roster

/-- Row of the `classes` table (`init_db`). -/
structure ClassRow where
  id : ℕ
  name : String
  order_index : ℤ
deriving DecidableEq

/-- Row of the `members` table (`init_db`), one field per column. -/
structure MemberRow where
  id : ℕ
  class_id : ℕ
  first_name : String
  last_name : String
  nickname : String
  full_name : String
  join_order : ℚ
  roll_number : ℕ
  honorific : String
  bio : Option String
  major : Option String
  age : Option ℕ
  ethnicity : Option String
  hometown : Option String
  discord_handle : Option String
  phone : Option String
  su_email : Option String
  personal_email : Option String
  su_id : Option String
  standing : Option String
  shirt_size : Option String
  birthday : Option String
  lineage : Option String
  personality16 : Option String
  love_language : Option String
  fascination_advantage : Option String
  notes : Option String
  interest : Option String
deriving DecidableEq

/-- Row of the `member_socials` table. -/
structure SocialRow where
  member_id : ℕ
  platform : String
  handle : String
deriving DecidableEq

/-- Row of the `family` table (`member_id` is the primary key). -/
structure FamilyRow where
  member_id : ℕ
  big_id : Option ℕ
deriving DecidableEq

/-- The whole SQLite database.  `skipped_numbers` is the single-column table of
blackballed roll numbers; the two counters model `AUTOINCREMENT` ids. -/
structure DB where
  classes : List ClassRow
  members : List MemberRow
  member_socials : List SocialRow
  family : List FamilyRow
  skipped_numbers : Finset ℕ
  next_class_id : ℕ
  next_member_id : ℕ
deriving DecidableEq

/-- SQLite `LOWER` / Python `str.lower`, modelled character-wise. -/
def lowerStr (s : String) : String := ⟨s.data.map Char.toLower⟩

/-- Python `str.strip`: drop leading and trailing whitespace. -/
def stripStr (s : String) : String :=
  ⟨((s.data.dropWhile Char.isWhitespace).reverse.dropWhile Char.isWhitespace).reverse⟩

/-- The empty database right after `init_db` (all tables empty,
`AUTOINCREMENT` counters at 1). -/
def emptyDB : DB :=
  { classes := [], members := [], member_socials := [], family := [],
    skipped_numbers := ∅, next_class_id := 1, next_member_id := 1 }

/-- `_class_id`: `SELECT id FROM classes WHERE name=?` (exact match),
`fetchone`. -/
def _class_id (db : DB) (name : String) : Option ℕ :=
  (db.classes.find? (fun c => c.name = name)).map (fun c => c.id)

/-- `SELECT COALESCE(MAX(order_index), 0) + 1 FROM classes`, the order index
`_ensure_class` gives a freshly created class. -/
def nextOrderIndex (db : DB) : ℤ :=
  ((db.classes.map (fun c => c.order_index)).max?.getD 0) + 1

/-- The committed effect of `_ensure_class`'s
`INSERT INTO classes(name, order_index) VALUES(name.strip(), next_idx)`. -/
def classInserted (db : DB) (name : String) : DB :=
  { db with
      classes := db.classes ++
        [⟨db.next_class_id, stripStr name, nextOrderIndex db⟩],
      next_class_id := db.next_class_id + 1 }

/-- `_ensure_class`: if `_class_id(name)` (exact, unstripped comparison)
resolves, return that id.  Otherwise `INSERT` a class row with the *stripped*
name — failing with an `IntegrityError` when a class with that stripped name
already exists (`classes.name` is `UNIQUE`) — commit, and `return
_class_id(name)`: the re-lookup again uses the *unstripped* name, so for a
padded `name` it yields `None` even though the stripped class was just
created and committed. -/
def _ensure_class (db : DB) (name : String) : Except String (Option ℕ × DB) :=
  match _class_id db name with
  | some cid => .ok (some cid, db)
  | none =>
      if (db.classes.find? (fun c => c.name = stripStr name)).isSome = true then
        .error "UNIQUE constraint failed: classes.name"
      else
        .ok (_class_id (classInserted db name) name, classInserted db name)

/-- `_member_id_by_nick`: `SELECT id FROM members WHERE
LOWER(nickname)=LOWER(?)`, `fetchone` (first matching row). -/
def _member_id_by_nick (db : DB) (nick : String) : Option ℕ :=
  (db.members.find? (fun m => lowerStr m.nickname = lowerStr nick)).map (fun m => m.id)

/-- The `while n in skipped: n += 1` loop of `_next_roll_number`: the first
integer `≥ n` that is not in `skipped`. -/
def skipLoop (skipped : Finset ℕ) (n : ℕ) : ℕ :=
  if n ∈ skipped then skipLoop skipped (n + 1) else n
termination_by (skipped.filter (fun m => n ≤ m)).card
decreasing_by
  apply Finset.card_lt_card
  constructor
  · intro x hx
    simp only [Finset.mem_filter] at hx ⊢
    exact ⟨hx.1, Nat.le_of_succ_le hx.2⟩
  · intro hsub
    have hn : n ∈ skipped.filter (fun m => n ≤ m) := by
      simp only [Finset.mem_filter]
      exact ⟨by assumption, le_refl n⟩
    have := hsub hn
    simp only [Finset.mem_filter] at this
    omega

/-- `SELECT MAX(roll_number) FROM members` (`NULL` on an empty table). -/
def maxRoll (ms : List MemberRow) : Option ℕ :=
  (ms.map (fun m => m.roll_number)).max?

/-- `_next_roll_number`: start from `MAX(roll_number)` (taking 1 when no roll
number is assigned), add 1, and skip over blackballed numbers. -/
def _next_roll_number (db : DB) : ℕ :=
  skipLoop db.skipped_numbers ((maxRoll db.members).getD 1 + 1)

/-- `SELECT COALESCE(MAX(join_order), 0) + 1 FROM members WHERE class_id=?`. -/
def nextJoinOrder (db : DB) (cid : ℕ) : ℚ :=
  (((db.members.filter (fun m => m.class_id = cid)).map
      (fun m => m.join_order)).max?.getD 0) + 1

/-- The member row `add_member`'s `INSERT` writes: trimmed names, computed
full name, next join order and roll number of the post-`_ensure_class` store,
default honorific, empty profile. -/
def newMemberRow (db1 : DB) (cid : ℕ)
    (first_name last_name nickname : String) (bio : Option String) :
    MemberRow :=
  { id := db1.next_member_id, class_id := cid,
    first_name := stripStr first_name, last_name := stripStr last_name,
    nickname := stripStr nickname,
    full_name := stripStr first_name ++ " " ++ stripStr last_name,
    join_order := nextJoinOrder db1 cid,
    roll_number := _next_roll_number db1, honorific := "Mr.", bio := bio,
    major := none, age := none, ethnicity := none, hometown := none,
    discord_handle := none, phone := none, su_email := none,
    personal_email := none, su_id := none, standing := none,
    shirt_size := none, birthday := none, lineage := none,
    personality16 := none, love_language := none,
    fascination_advantage := none, notes := none, interest := none }

/-- `add_member`: run `_ensure_class` (whose class insert, when it happens,
is committed separately), then `INSERT` the member row and return the
assigned roll number.  When `_ensure_class` raises, nothing has changed; when
it returns `None` (padded class name), the preceding `SELECT`s for the join
order and roll number are pure reads and the member `INSERT` itself raises
(`members.class_id` is `NOT NULL`), so no person is created although the
freshly inserted class remains.  The result pairs the store after the call
with the returned roll number or the propagated error. -/
def add_member (db : DB) (class_name first_name last_name nickname : String)
    (bio : Option String := none) : DB × Except String ℕ :=
  match _ensure_class db class_name with
  | .error e => (db, .error e)
  | .ok (none, db1) => (db1, .error "NOT NULL constraint failed: members.class_id")
  | .ok (some cid, db1) =>
      ({ db1 with
          members := db1.members ++
            [newMemberRow db1 cid first_name last_name nickname bio],
          next_member_id := db1.next_member_id + 1 },
        .ok (_next_roll_number db1))

/-- `remove_member`: resolve the nickname case-insensitively; no-op when
absent; otherwise delete the member's socials, family edges (as either side)
and the member row itself. -/
def remove_member (db : DB) (nickname : String) : DB :=
  match _member_id_by_nick db nickname with
  | none => db
  | some mid =>
      { db with
          member_socials := db.member_socials.filter (fun s => ¬ s.member_id = mid),
          family := db.family.filter
            (fun f => ¬ (f.member_id = mid ∨ f.big_id = some mid)),
          members := db.members.filter (fun m => ¬ m.id = mid) }

/-- `FROM members m JOIN classes c ON m.class_id=c.id`: each member paired
with the name of its class (members whose class id resolves to no class are
dropped by the inner join). -/
def joinedMembers (db : DB) : List (MemberRow × String) :=
  db.members.filterMap
    (fun m => (db.classes.find? (fun c => c.id = m.class_id)).map
      (fun c => (m, c.name)))

/-- A row returned by `lookup_members`:
`(roll_number, first_name, nickname, last_name, class name)`. -/
structure FoundRow where
  roll_number : ℕ
  first_name : String
  nickname : String
  last_name : String
  class_name : String
deriving DecidableEq

/-- Python truthiness of an optional string argument (`if first:`):
provided and non-empty. -/
def strGiven : Option String → Bool
  | some s => s ≠ ""
  | none => false

/-- Python truthiness of an optional integer argument (`if number:`):
provided and non-zero. -/
def natGiven : Option ℕ → Bool
  | some n => n ≠ 0
  | none => false

/-- The `WHERE` clause `lookup_members` builds: one conjunct (`AND`) per
provided criterion, string comparisons case-insensitive. -/
def lookupMatches (first last nick : Option String) (number : Option ℕ)
    (m : MemberRow) : Bool :=
  (if strGiven first then lowerStr m.first_name = lowerStr (first.getD "") else true) &&
  (if strGiven last then lowerStr m.last_name = lowerStr (last.getD "") else true) &&
  (if strGiven nick then lowerStr m.nickname = lowerStr (nick.getD "") else true) &&
  (if natGiven number then m.roll_number = number.getD 0 else true)

/-- `lookup_members`: filter the member/class join by the conjunction of the
provided criteria and return the rows ordered by roll number ascending. -/
def lookup_members (db : DB) (first last nick : Option String)
    (number : Option ℕ) : List FoundRow :=
  (((joinedMembers db).filter
      (fun p => lookupMatches first last nick number p.1)).map
    (fun p => FoundRow.mk p.1.roll_number p.1.first_name p.1.nickname
      p.1.last_name p.2)).mergeSort
    (fun a b => a.roll_number ≤ b.roll_number)

/-- The `fields` dict passed to `get_member_card_by`. -/
structure CardQuery where
  number : Option ℕ
  first : Option String
  last : Option String
  nick : Option String

/-- The dict `get_member_card_by` returns (socials as platform→handle pairs,
big and littles resolved to nicknames). -/
structure Card where
  first : String
  last : String
  nick : String
  roll : ℕ
  honor : String
  class_name : String
  bio : Option String
  socials : List (String × String)
  big : Option String
  littles : List String
deriving DecidableEq

/-- The `WHERE` clause `get_member_card_by` builds: one disjunct (`OR`) per
provided field (`number` is included whenever it is not `None`; the string
fields whenever they are truthy). -/
def cardMatches (f : CardQuery) (m : MemberRow) : Bool :=
  (f.number.isSome && m.roll_number = f.number.getD 0) ||
  (strGiven f.first && lowerStr m.first_name = lowerStr (f.first.getD "")) ||
  (strGiven f.last && lowerStr m.last_name = lowerStr (f.last.getD "")) ||
  (strGiven f.nick && lowerStr m.nickname = lowerStr (f.nick.getD ""))

/-- `SELECT big_id FROM family WHERE member_id=?` then the big's nickname. -/
def bigNickOf (db : DB) (mid : ℕ) : Option String :=
  (db.family.find? (fun f => f.member_id = mid)).bind
    (fun f => f.big_id.bind
      (fun b => (db.members.find? (fun m => m.id = b)).map (fun m => m.nickname)))

/-- The littles of a member: nicknames of members whose family edge points to
them as big. -/
def littlesOf (db : DB) (mid : ℕ) : List String :=
  (db.family.filter (fun f => f.big_id = some mid)).filterMap
    (fun f => (db.members.find? (fun m => m.id = f.member_id)).map
      (fun m => m.nickname))

/-- `SELECT platform, handle FROM member_socials WHERE member_id=?`. -/
def socialsOf (db : DB) (mid : ℕ) : List (String × String) :=
  (db.member_socials.filter (fun s => s.member_id = mid)).map
    (fun s => (s.platform, s.handle))

/-- `get_member_card_by`: when no field is provided the `WHERE` list is empty
and the function returns `None` (the source performs only `SELECT`s, so it is
embedded as a pure function); otherwise take the first member of the
member/class join matching the disjunction (`LIMIT 1`) and assemble its card. -/
def get_member_card_by (db : DB) (f : CardQuery) : Option Card :=
  if ¬ (f.number.isSome || strGiven f.first || strGiven f.last || strGiven f.nick) then
    none
  else
    ((joinedMembers db).find? (fun p => cardMatches f p.1)).map
      (fun p =>
        { first := p.1.first_name, last := p.1.last_name, nick := p.1.nickname,
          roll := p.1.roll_number, honor := p.1.honorific, class_name := p.2,
          bio := p.1.bio, socials := socialsOf db p.1.id,
          big := bigNickOf db p.1.id, littles := littlesOf db p.1.id })

/-- `update_member_name`: resolve the member case-insensitively by nickname
(error when absent), read the current first/last names, and update exactly the
provided fields, recomputing `full_name` whenever a first or last name is
provided.  (The source reads the row back by its primary key; since the id
came from the nickname lookup this is the same row.) -/
def update_member_name (db : DB) (nickname : String)
    (first_name last_name new_nickname honorific : Option String) :
    Except String DB :=
  match db.members.find? (fun m => lowerStr m.nickname = lowerStr nickname) with
  | none => .error "Member not found."
  | some row =>
      let mid := row.id
      let new_first := first_name.getD row.first_name
      let new_last := last_name.getD row.last_name
      let new_full := new_first ++ " " ++ new_last
      if first_name = none ∧ last_name = none ∧ new_nickname = none ∧
          honorific = none then
        .ok db
      else
        .ok { db with
                members := db.members.map (fun m =>
                  if m.id = mid then
                    { m with
                        first_name := first_name.getD m.first_name,
                        last_name := last_name.getD m.last_name,
                        nickname := new_nickname.getD m.nickname,
                        honorific := honorific.getD m.honorific,
                        full_name :=
                          if first_name ≠ none ∨ last_name ≠ none then new_full
                          else m.full_name }
                  else m) }

/-- The big of a member as an id: the `family` row keyed by the member. -/
def parentIdOf (db : DB) (mid : ℕ) : Option ℕ :=
  (db.family.find? (fun f => f.member_id = mid)).bind (fun f => f.big_id)

/-- The littles of a member as ids. -/
def childIdsOf (db : DB) (mid : ℕ) : List ℕ :=
  (db.family.filter (fun f => f.big_id = some mid)).map (fun f => f.member_id)

/-- One import record: the values the `_CONTACT_MAP` columns carry for one
spreadsheet row.  The three required columns are plain strings; every other
mapped column is `Option` (`none` = the column is absent from the sheet, so
the key is missing from `rec`). -/
structure ImportRec where
  first_name : String
  last_name : String
  nickname : String
  phone : Option String
  su_email : Option String
  personal_email : Option String
  su_id : Option String
  standing : Option String
  major : Option String
  ethnicity : Option String
  hometown : Option String
  shirt_size : Option String
  birthday : Option String
  lineage : Option String
  personality16 : Option String
  love_language : Option String
  fascination_advantage : Option String
  notes : Option String
  interest : Option String

/-- `_clean_phone`: keep only digit characters; an absent value or an empty
digit string becomes `None`. -/
def _clean_phone : Option String → Option String
  | none => none
  | some s =>
      let digits := String.mk (s.data.filter (fun c => c.isDigit))
      if digits = "" then none else some digits

/-- The `SELECT id, class_id FROM members WHERE LOWER(nickname)=LOWER(?) OR
(LOWER(first_name)=LOWER(?) AND LOWER(last_name)=LOWER(?)) LIMIT 1` match of
the import loop. -/
def findImportMatch (db : DB) (nick first last : String) : Option MemberRow :=
  db.members.find? (fun m =>
    lowerStr m.nickname = lowerStr nick ∨
      (lowerStr m.first_name = lowerStr first ∧ lowerStr m.last_name = lowerStr last))

/-- The `UPDATE` the import loop issues for a matched member: `full_name` is
always recomputed; each `_CONTACT_MAP` column present in the record is set to
the record's value; finally the cleaned phone, when non-`None`, overrides the
raw one (SQLite keeps the rightmost assignment to a column in a `SET` list).
No other column — in particular `roll_number`, `class_id` and `join_order` —
appears in the `SET` list. -/
def applyImportUpdate (rec : ImportRec) (first last : String) (m : MemberRow) :
    MemberRow :=
  { m with
      full_name := first ++ " " ++ last,
      first_name := rec.first_name,
      last_name := rec.last_name,
      nickname := rec.nickname,
      phone :=
        match _clean_phone rec.phone with
        | some p => some p
        | none => match rec.phone with
                  | some v => some v
                  | none => m.phone,
      su_email := rec.su_email.or m.su_email,
      personal_email := rec.personal_email.or m.personal_email,
      su_id := rec.su_id.or m.su_id,
      standing := rec.standing.or m.standing,
      major := rec.major.or m.major,
      ethnicity := rec.ethnicity.or m.ethnicity,
      hometown := rec.hometown.or m.hometown,
      shirt_size := rec.shirt_size.or m.shirt_size,
      birthday := rec.birthday.or m.birthday,
      lineage := rec.lineage.or m.lineage,
      personality16 := rec.personality16.or m.personality16,
      love_language := rec.love_language.or m.love_language,
      fascination_advantage := rec.fascination_advantage.or m.fascination_advantage,
      notes := rec.notes.or m.notes,
      interest := rec.interest.or m.interest }

/-- One iteration of the import loop of `import_roster_dataframe`, as its
body is written (the loop is unreachable in the program — see
`_normalize_headers`): trim the required fields and skip the row when one is
empty; otherwise match an existing member by nickname or first+last
(case-insensitively) and update it in place, or — when no match and creation
is enabled — insert a new member into the default class with the next join
order and roll number. -/
def importRecord (db : DB) (cid_default : ℕ) (create_missing : Bool)
    (rec : ImportRec) : DB :=
  let first := stripStr rec.first_name
  let last := stripStr rec.last_name
  let nick := stripStr rec.nickname
  if first = "" ∨ last = "" ∨ nick = "" then db
  else
    match findImportMatch db nick first last with
    | some m =>
        { db with
            members := db.members.map (fun x =>
              if x.id = m.id then applyImportUpdate rec first last x else x) }
    | none =>
        if ¬ create_missing then db
        else
          let jo := nextJoinOrder db cid_default
          let roll := _next_roll_number db
          { db with
              members := db.members ++
                [{ id := db.next_member_id, class_id := cid_default,
                   first_name := first, last_name := last, nickname := nick,
                   full_name := first ++ " " ++ last, join_order := jo,
                   roll_number := roll, honorific := "Mr.", bio := none,
                   major := rec.major, age := none, ethnicity := rec.ethnicity,
                   hometown := rec.hometown, discord_handle := none,
                   phone := _clean_phone rec.phone, su_email := rec.su_email,
                   personal_email := rec.personal_email, su_id := rec.su_id,
                   standing := rec.standing, shirt_size := rec.shirt_size,
                   birthday := rec.birthday, lineage := rec.lineage,
                   personality16 := rec.personality16,
                   love_language := rec.love_language,
                   fascination_advantage := rec.fascination_advantage,
                   notes := rec.notes, interest := rec.interest }],
              next_member_id := db.next_member_id + 1 }

/-- `_normalize_headers` (db.py line 477): its body
`df.rename(columns={c: str(c).strip().lower(): c for c in df.columns})`
is not valid Python — the dict display carries two colons per entry — so the
definition is a `SyntaxError` and the module containing it cannot even be
loaded.  Embedded as the unconditional failure it is. -/
def _normalize_headers : Except String Unit :=
  .error "SyntaxError: invalid syntax (db.py, line 477)"

/-- `import_roster_dataframe`: its first statement is
`df = _normalize_headers(df)`, so every call fails before the required-column
check, the optional wipe and the per-record loop (indeed the whole module
fails to load); were the call to succeed, the loop would fold `importRecord`
over the records. -/
def import_roster_dataframe (db : DB) (cid_default : ℕ) (create_missing : Bool)
    (recs : List ImportRec) : Except String DB :=
  match _normalize_headers with
  | .error e => .error e
  | .ok _ =>
      .ok (recs.foldl
        (fun d r => importRecord d cid_default create_missing r) db)

/-- The export spreadsheet as `export_roster_dataframe` builds it: the joined
member rows ordered by roll number, plus the extra columns appended to the
frame. -/
structure ExportFrame where
  rows : List (MemberRow × String)
  big_nickname : List (Option String)
  instagram : List (Option String)
  x : List (Option String)
  linkedin : List (Option String)
  other : List (Option String)
deriving DecidableEq

/-- pandas `df[col] = values` with a list right-hand side: the list must have
exactly one value per row of the frame, otherwise the assignment raises
`ValueError: Length of values does not match length of index`. -/
def dfSetColumn (nrows : ℕ) (values : List α) : Except String (List α) :=
  if values.length = nrows then .ok values
  else .error "Length of values does not match length of index"

/-- The social handles of a member as a platform→handle association list
(the `socials_map` entry `export_roster_dataframe` builds per member). -/
def socialsMapOf (db : DB) (mid : ℕ) : List (String × String) :=
  (db.member_socials.filter (fun s => s.member_id = mid)).map
    (fun s => (s.platform, s.handle))

/-- `export_roster_dataframe`: select the member/class join ordered by roll
number ascending, append the resolved big nicknames, then append one column
per platform in `("instagram", "x", "linkedin", "other")`.  The source builds
each platform column with `[socials_map.get(mid, {}).get(plat) for mid in []]`
— a comprehension over the empty list (a "noop placeholder"), so the column it
assigns is always the empty list. -/
def export_roster_dataframe (db : DB) : Except String ExportFrame := do
  let rows := (joinedMembers db).mergeSort
    (fun a b => a.1.roll_number ≤ b.1.roll_number)
  let mids := rows.map (fun p => p.1.id)
  let bigs ← dfSetColumn rows.length (mids.map (fun mid => bigNickOf db mid))
  let instagram ← dfSetColumn rows.length
    (([] : List ℕ).map (fun mid => (socialsMapOf db mid).lookup "instagram"))
  let xcol ← dfSetColumn rows.length
    (([] : List ℕ).map (fun mid => (socialsMapOf db mid).lookup "x"))
  let linkedin ← dfSetColumn rows.length
    (([] : List ℕ).map (fun mid => (socialsMapOf db mid).lookup "linkedin"))
  let other ← dfSetColumn rows.length
    (([] : List ℕ).map (fun mid => (socialsMapOf db mid).lookup "other"))
  return { rows := rows, big_nickname := bigs, instagram := instagram,
           x := xcol, linkedin := linkedin, other := other }

/-!
The display-ordering engine (`_member_core_by_roll`, `_renormalize_join_order`,
`swap_display_positions`, `move_display_after`) touches only four columns of
the `members` table: the primary key `id`, `class_id`, `join_order` and
`roll_number`.  Here the table is modelled keyed by its primary key: a finite
set of ids together with one function per column.  `UPDATE … WHERE id=?` is a
pointwise function update; `SELECT … ORDER BY join_order, id` with
`enumerate(…, start=1)` assigns each row one plus the number of rows sorting
strictly before it.
-/

/-- The columns of `members` the display-ordering functions read and write,
keyed by the primary key `id`. -/
structure OrdState where
  ids : Finset ℕ
  cls : ℕ → ℕ
  pos : ℕ → ℚ
  roll : ℕ → ℕ

/-- The ids of the members of class `c` (`WHERE class_id=?`). -/
def clsIds (st : OrdState) (c : ℕ) : Finset ℕ :=
  st.ids.filter (fun i => st.cls i = c)

/-- `j` sorts strictly before `i` under `ORDER BY join_order ASC, id ASC`. -/
def sortsBefore (st : OrdState) (j i : ℕ) : Prop :=
  st.pos j < st.pos i ∨ (st.pos j = st.pos i ∧ j < i)

instance (st : OrdState) (j i : ℕ) : Decidable (sortsBefore st j i) := by
  unfold sortsBefore; infer_instance

/-- The position `_renormalize_join_order` assigns to member `i` of class `c`:
its 1-based index in the rows of the class sorted by `(join_order, id)`, i.e.
one plus the number of class members sorting strictly before it. -/
def rankIn (st : OrdState) (c : ℕ) (i : ℕ) : ℕ :=
  ((clsIds st c).filter (fun j => sortsBefore st j i)).card + 1

/-- `_renormalize_join_order`: re-sort the members of class `c` by
`(join_order, id)` and assign dense integer positions `1..N`; rows outside the
class are untouched. -/
def _renormalize_join_order (st : OrdState) (c : ℕ) : OrdState :=
  { st with pos := fun i => if i ∈ clsIds st c then (rankIn st c i : ℚ) else st.pos i }

/-- `_member_core_by_roll`: `SELECT id … FROM members WHERE roll_number=?`,
`fetchone` (`roll_number` is `UNIQUE`, so at most one row matches; the
smallest matching id stands for the fetched row). -/
def memberByRoll (st : OrdState) (n : ℕ) : Option ℕ :=
  let s := st.ids.filter (fun i => st.roll i = n)
  if h : s.Nonempty then some (s.min' h) else none

/-- `swap_display_positions`: resolve both roll numbers (error when either is
absent), require the same class, then set a's position to −1, b's to a's old
position, a's to b's old position, and renormalize the class.  Only
`join_order` is written; roll numbers are untouched. -/
def swap_display_positions (st : OrdState) (number_a number_b : ℕ) :
    Except String OrdState :=
  match memberByRoll st number_a, memberByRoll st number_b with
  | some a, some b =>
      if st.cls a ≠ st.cls b then
        .error "Members must be in the same class to swap display positions."
      else
        let aOrd := st.pos a
        let bOrd := st.pos b
        let st1 := { st with pos := Function.update st.pos a (-1) }
        let st2 := { st1 with pos := Function.update st1.pos b aOrd }
        let st3 := { st2 with pos := Function.update st2.pos a bOrd }
        .ok (_renormalize_join_order st3 (st.cls a))
  | _, _ => .error "Both roll numbers must exist."

/-- `move_display_after`: resolve both roll numbers (error when either is
absent), require the same class, set the moving member's position to the
target's position plus one half, and renormalize the class. -/
def move_display_after (st : OrdState) (number target_after : ℕ) :
    Except String OrdState :=
  match memberByRoll st number, memberByRoll st target_after with
  | some s, some t =>
      if st.cls s ≠ st.cls t then
        .error "Members must be in the same class to move display order."
      else
        let st1 := { st with pos := Function.update st.pos s (st.pos t + 1/2) }
        .ok (_renormalize_join_order st1 (st.cls s))
  | _, _ => .error "Both roll numbers must exist."

/-- The positions of class `c` are dense integers `1..N` (`N` the size of the
class): distinct positions whose image is exactly `{1, …, N}` cast into `ℚ`. -/
def DensePositions (st : OrdState) (c : ℕ) : Prop :=
  ((clsIds st c).image st.pos =
      (Finset.Icc 1 (clsIds st c).card).image (fun k : ℕ => (k : ℚ))) ∧
    ∀ i ∈ clsIds st c, ∀ j ∈ clsIds st c, st.pos i = st.pos j → i = j

instance (st : OrdState) (c : ℕ) : Decidable (DensePositions st c) := by
  unfold DensePositions; infer_instance

/-!  ## Concrete stores used in counterexamples and witnesses  -/

/-- A member row as `add_member` inserts it: default honorific, empty
profile. -/
def mkRow (id class_id : ℕ) (first last nick full : String) (jo : ℚ)
    (roll : ℕ) : MemberRow :=
  { id := id, class_id := class_id, first_name := first, last_name := last,
    nickname := nick, full_name := full, join_order := jo, roll_number := roll,
    honorific := "Mr.", bio := none, major := none, age := none,
    ethnicity := none, hometown := none, discord_handle := none, phone := none,
    su_email := none, personal_email := none, su_id := none, standing := none,
    shirt_size := none, birthday := none, lineage := none,
    personality16 := none, love_language := none,
    fascination_advantage := none, notes := none, interest := none }

/-- C2 trace, step 1: create a first person in a fresh store. -/
def c2Step1 : DB × Except String ℕ := add_member emptyDB "Alpha" "Al" "An" "aa" none

/-- C2 trace, step 2: create a second person. -/
def c2Step2 : DB × Except String ℕ := add_member c2Step1.1 "Alpha" "Bo" "Bn" "bb" none

/-- C2 trace, step 3: delete the second person. -/
def c2Step3 : DB := remove_member c2Step2.1 "bb"

/-- C2 trace, step 4: create a third person after the deletion. -/
def c2Step4 : DB × Except String ℕ := add_member c2Step3 "Alpha" "Cy" "Cn" "cc" none

/-- The columns of a member row the trace arguments below depend on
(`join_order` left out, so that the projection is free of `ℚ`):
id, nickname and roll number. -/
def memberCore (m : MemberRow) : ℕ × String × ℕ :=
  (m.id, m.nickname, m.roll_number)

/-- A one-member store used as witness input: "Wi Wn" holds roll 2. -/
def c2WitnessRow : MemberRow := mkRow 1 1 "Wi" "Wn" "ww" "Wi Wn" 1 2

/-- The witness store holding `c2WitnessRow`. -/
def c2WitnessDB : DB :=
  ⟨[⟨1, "Alpha", 1⟩], [c2WitnessRow], [], [], ∅, 2, 2⟩

/-- Store for the C3 counterexample: Jane Doe ("jd", roll 2) and Bob Roe
("ab", roll 3) in class "Alpha". -/
def c3DB : DB :=
  ⟨[⟨1, "Alpha", 1⟩],
    [mkRow 1 1 "Jane" "Doe" "jd" "Jane Doe" 1 2,
     mkRow 2 1 "Bob" "Roe" "ab" "Bob Roe" 2 3],
    [], [], ∅, 2, 3⟩

/-- One-member store for the C10 witness. -/
def c10DB : DB :=
  ⟨[⟨1, "Alpha", 1⟩], [mkRow 1 1 "Jane" "Doe" "jd" "Jane Doe" 1 2],
    [], [], ∅, 2, 2⟩

/-- Concrete ordering state for the C6 and C7 witnesses: two members (ids 1
and 2) of class 0 at dense positions 1 and 2, holding rolls 2 and 3. -/
def c6St : OrdState :=
  { ids := {1, 2}, cls := fun _ => 0, pos := fun i => (i : ℚ),
    roll := fun i => i + 1 }

/-- One-member store on which C5 evaluates the export. -/
def c5DB : DB :=
  ⟨[⟨1, "Alpha", 1⟩], [mkRow 1 1 "Jane" "Doe" "jd" "Jane Doe" 1 2],
    [], [], ∅, 2, 2⟩

/-- Store for the C8 witness: "jd" (id 1) has big "ab" (id 2) and littles
"cd" (id 3), plus an instagram handle. -/
def c8DB : DB :=
  ⟨[⟨1, "Alpha", 1⟩],
    [mkRow 1 1 "Jane" "Doe" "jd" "Jane Doe" 1 2,
     mkRow 2 1 "Amy" "Bee" "ab" "Amy Bee" 2 3,
     mkRow 3 1 "Cal" "Dee" "cd" "Cal Dee" 3 4],
    [⟨1, "instagram", "@jane"⟩],
    [⟨1, some 2⟩, ⟨3, some 1⟩],
    ∅, 2, 4⟩

/-- `c8DB` after renaming "jd" to "newjd": only the nickname cell changes. -/
def c8DBAfter : DB :=
  ⟨[⟨1, "Alpha", 1⟩],
    [mkRow 1 1 "Jane" "Doe" "newjd" "Jane Doe" 1 2,
     mkRow 2 1 "Amy" "Bee" "ab" "Amy Bee" 2 3,
     mkRow 3 1 "Cal" "Dee" "cd" "Cal Dee" 3 4],
    [⟨1, "instagram", "@jane"⟩],
    [⟨1, some 2⟩, ⟨3, some 1⟩],
    ∅, 2, 4⟩

/-- The member row matched by the concrete import record below. -/
def c9Row : MemberRow := mkRow 1 1 "Jane" "Doe" "jd" "Jane Doe" 1 2

/-- One-member store on which C9 evaluates the import. -/
def c9DB : DB := ⟨[⟨1, "Alpha", 1⟩], [c9Row], [], [], ∅, 2, 2⟩

/-- Concrete import record: matches `c9Row` by nickname; carries a
phone and a major but leaves every other optional column absent. -/
def c9Rec : ImportRec :=
  { first_name := "Jane", last_name := "Doe", nickname := "jd",
    phone := some "555-123-4567", su_email := none, personal_email := none,
    su_id := none, standing := none, major := some "CS", ethnicity := none,
    hometown := none, shirt_size := none, birthday := none, lineage := none,
    personality16 := none, love_language := none,
    fascination_advantage := none, notes := none, interest := none }

/-!  ## Lemmas about the numbering allocator  -/

/-- `skipLoop` returns the least integer `≥ n` outside `skipped`. -/
theorem skipLoop_spec (sk : Finset ℕ) (n : ℕ) :
    skipLoop sk n ∉ sk ∧ n ≤ skipLoop sk n ∧
      ∀ m, n ≤ m → m ∉ sk → skipLoop sk n ≤ m := by
  induction n using skipLoop.induct sk with
  | case1 n hmem ih =>
      rw [skipLoop, if_pos hmem]
      refine ⟨ih.1, by omega, ?_⟩
      intro m hm hms
      have h2 : n + 1 ≤ m := by
        rcases Nat.eq_or_lt_of_le hm with h | h
        · exact absurd (h ▸ hmem) hms
        · omega
      exact ih.2.2 m h2 hms
  | case2 n hmem =>
      rw [skipLoop, if_neg hmem]
      exact ⟨hmem, le_refl n, fun m hm _ => hm⟩

theorem skipLoop_of_not_mem {sk : Finset ℕ} {n : ℕ} (h : n ∉ sk) :
    skipLoop sk n = n := by
  rw [skipLoop, if_neg h]

/-- A resolved class name short-circuits `_ensure_class`. -/
theorem ensure_class_of_found (db : DB) (name : String) {cid : ℕ}
    (h : _class_id db name = some cid) :
    _ensure_class db name = .ok (some cid, db) := by
  unfold _ensure_class
  rw [h]

/-- Whatever `_ensure_class` returns without raising, the store it hands back
differs from the input at most in the `classes` table and the class-id
counter. -/
theorem ensure_class_ok_fields (db : DB) (name : String) {o : Option ℕ}
    {db1 : DB} (h : _ensure_class db name = .ok (o, db1)) :
    db1.members = db.members ∧ db1.skipped_numbers = db.skipped_numbers ∧
      db1.next_member_id = db.next_member_id := by
  unfold _ensure_class at h
  split at h
  · injection h with h
    rw [Prod.mk.injEq] at h
    obtain ⟨-, h2⟩ := h
    subst h2
    exact ⟨rfl, rfl, rfl⟩
  · split at h
    · exact absurd h (by simp)
    · injection h with h
      rw [Prod.mk.injEq] at h
      obtain ⟨-, h2⟩ := h
      subst h2
      exact ⟨rfl, rfl, rfl⟩

/-- The success path of `add_member`, given the resolved class id. -/
theorem add_member_ok (db : DB) (cn fn ln nk : String) (bio : Option String)
    {cid : ℕ} {db1 : DB} (h : _ensure_class db cn = .ok (some cid, db1)) :
    add_member db cn fn ln nk bio =
      ({ db1 with
          members := db1.members ++ [newMemberRow db1 cid fn ln nk bio],
          next_member_id := db1.next_member_id + 1 },
        .ok (_next_roll_number db1)) := by
  unfold add_member
  rw [h]

/-- With no blackballed number in the way, the allocator returns exactly the
current maximum (or the floor 1) plus one. -/
theorem next_roll_no_skip (db : DB)
    (h : (maxRoll db.members).getD 1 + 1 ∉ db.skipped_numbers) :
    _next_roll_number db = (maxRoll db.members).getD 1 + 1 := by
  unfold _next_roll_number
  exact skipLoop_of_not_mem h

/-- C1: whenever `add_member` returns a sequence number, that number (also
stored on the inserted person) is not excluded, is strictly greater than the
current maximum assigned sequence number (the floor value 1 standing in when
none is assigned), and is the smallest such integer. -/
theorem create_person_allocates_least_fresh (db : DB) (cn fn ln nk : String)
    (bio : Option String) (r : ℕ)
    (h : (add_member db cn fn ln nk bio).2 = .ok r) :
    r ∉ db.skipped_numbers ∧
    (maxRoll db.members).getD 1 < r ∧
    ∀ k, (maxRoll db.members).getD 1 < k → k ∉ db.skipped_numbers → r ≤ k := by
  unfold add_member at h
  split at h
  · exact absurd h (by simp)
  · exact absurd h (by simp)
  · rename_i cid db1 heq
    simp only [Except.ok.injEq] at h
    subst h
    obtain ⟨hm, hsk, -⟩ := ensure_class_ok_fields db cn heq
    unfold _next_roll_number
    rw [hm, hsk]
    obtain ⟨h1, h2, h3⟩ :=
      skipLoop_spec db.skipped_numbers ((maxRoll db.members).getD 1 + 1)
    exact ⟨h1, by omega, fun k hk hks => h3 k (by omega) hks⟩

/-- Witness for C1: on the empty store (no excluded numbers) the very first
person gets sequence number 2. -/
theorem create_person_allocates_least_fresh_witness :
    (add_member emptyDB "Alpha" "Jane" "Doe" "JD" none).2 = .ok 2 ∧
    2 ∉ emptyDB.skipped_numbers ∧
    (maxRoll emptyDB.members).getD 1 < 2 := by
  have he : _ensure_class emptyDB "Alpha" =
      .ok (some 1, classInserted emptyDB "Alpha") := rfl
  have hok := add_member_ok emptyDB "Alpha" "Jane" "Doe" "JD" none he
  have h2 : (add_member emptyDB "Alpha" "Jane" "Doe" "JD" none).2 = .ok 2 := by
    rw [hok]
    show Except.ok (_next_roll_number (classInserted emptyDB "Alpha")) = _
    rw [next_roll_no_skip _ (by decide),
      show (maxRoll (classInserted emptyDB "Alpha").members).getD 1 + 1 = 2
        from by decide]
  obtain ⟨ha, hb, -⟩ := create_person_allocates_least_fresh emptyDB "Alpha"
    "Jane" "Doe" "JD" none 2 h2
  exact ⟨h2, ha, hb⟩

/-- The allocator exceeds the current maximum roll among live members. -/
theorem next_roll_gt_max (db : DB) :
    (maxRoll db.members).getD 1 < _next_roll_number db := by
  unfold _next_roll_number
  have h := (skipLoop_spec db.skipped_numbers ((maxRoll db.members).getD 1 + 1)).2.1
  omega

/-- The `memberCore` projection of a freshly inserted member row. -/
theorem memberCore_newMemberRow (db1 : DB) (cid : ℕ)
    (fn ln nk : String) (bio : Option String) :
    memberCore (newMemberRow db1 cid fn ln nk bio) =
      (db1.next_member_id, stripStr nk, _next_roll_number db1) := rfl

theorem remove_member_skipped (db : DB) (nk : String) :
    (remove_member db nk).skipped_numbers = db.skipped_numbers := by
  unfold remove_member
  cases _member_id_by_nick db nk <;> rfl

theorem remove_member_classes (db : DB) (nk : String) :
    (remove_member db nk).classes = db.classes := by
  unfold remove_member
  cases _member_id_by_nick db nk <;> rfl

theorem remove_member_members (db : DB) (nk : String) (mid : ℕ)
    (h : _member_id_by_nick db nk = some mid) :
    (remove_member db nk).members = db.members.filter (fun m => ¬ m.id = mid) := by
  unfold remove_member
  rw [h]

/-- The rolls of a member list are recoverable from its `memberCore`
projections. -/
theorem rolls_of_cores (ms : List MemberRow) :
    ms.map (fun m => m.roll_number) =
      (ms.map memberCore).map (fun c => c.2.2) := by
  rw [List.map_map]
  rfl

/-- `_member_id_by_nick` is computable from the `memberCore` projections. -/
theorem member_id_by_nick_of_cores (db : DB) (nk : String) :
    _member_id_by_nick db nk =
      ((db.members.map memberCore).find?
          (fun c => lowerStr c.2.1 = lowerStr nk)).map (fun c => c.1) := by
  unfold _member_id_by_nick
  rw [List.find?_map]
  have hp : ((fun c : ℕ × String × ℕ => decide (lowerStr c.2.1 = lowerStr nk)) ∘
      memberCore) = (fun m => decide (lowerStr m.nickname = lowerStr nk)) := rfl
  rw [hp, Option.map_map]
  rfl

/-- Filtering members by id commutes with the `memberCore` projection. -/
theorem filter_id_cores (ms : List MemberRow) (mid : ℕ) :
    (ms.filter (fun m => ¬ m.id = mid)).map memberCore =
      (ms.map memberCore).filter (fun c => ¬ c.1 = mid) := by
  rw [List.filter_map]
  have hp : ((fun c : ℕ × String × ℕ => decide (¬ c.1 = mid)) ∘ memberCore) =
      (fun m => decide (¬ m.id = mid)) := rfl
  rw [hp]

/-- C2 counterexample: the second person of the trace receives sequence
number 3; after that person is deleted the store only holds roll 2, and the
person created next receives sequence number 3 again — a previously assigned
number is reassigned to a later-created person after its holder's deletion. -/
theorem roll_reused_after_delete_counterexample :
    c2Step2.2 = .ok 3 ∧
    c2Step3.members.map (fun m => m.roll_number) = [2] ∧
    c2Step4.2 = .ok 3 := by
  have he1 : _ensure_class emptyDB "Alpha" =
      .ok (some 1, classInserted emptyDB "Alpha") := rfl
  have ha1 := add_member_ok emptyDB "Alpha" "Al" "An" "aa" none he1
  have r1 : _next_roll_number (classInserted emptyDB "Alpha") = 2 := by
    rw [next_roll_no_skip _ (by decide)]
    decide
  have hdb1 : c2Step1.1 =
      { classInserted emptyDB "Alpha" with
          members := (classInserted emptyDB "Alpha").members ++
            [newMemberRow (classInserted emptyDB "Alpha") 1 "Al" "An" "aa" none],
          next_member_id := (classInserted emptyDB "Alpha").next_member_id + 1 } := by
    rw [c2Step1, ha1]
  have cores1 : c2Step1.1.members.map memberCore = [(1, "aa", 2)] := by
    rw [hdb1]
    show ((classInserted emptyDB "Alpha").members ++
      [newMemberRow (classInserted emptyDB "Alpha") 1 "Al" "An" "aa" none]).map
        memberCore = _
    rw [List.map_append]
    simp only [List.map_cons, List.map_nil, memberCore_newMemberRow, r1]
    decide
  have nid1 : c2Step1.1.next_member_id = 2 := by
    rw [hdb1]
    decide
  have classes1 : c2Step1.1.classes = [⟨1, "Alpha", 1⟩] := by
    rw [hdb1]
    decide
  have hsk1 : c2Step1.1.skipped_numbers = ∅ := by
    rw [hdb1]
    rfl
  have rolls1 : c2Step1.1.members.map (fun m => m.roll_number) = [2] := by
    rw [rolls_of_cores, cores1]
    decide
  have maxr1 : maxRoll c2Step1.1.members = some 2 := by
    rw [maxRoll, rolls1]
    decide
  have he2 : _ensure_class c2Step1.1 "Alpha" = .ok (some 1, c2Step1.1) := by
    apply ensure_class_of_found
    unfold _class_id
    rw [classes1]
    decide
  have ha2 := add_member_ok c2Step1.1 "Alpha" "Bo" "Bn" "bb" none he2
  have r2 : _next_roll_number c2Step1.1 = 3 := by
    rw [next_roll_no_skip _ (by rw [maxr1, hsk1]; decide), maxr1]
    decide
  have e2 : c2Step2.2 = .ok 3 := by
    rw [c2Step2, ha2]
    show Except.ok (_next_roll_number c2Step1.1) = _
    rw [r2]
  have hdb2 : c2Step2.1 =
      { c2Step1.1 with
          members := c2Step1.1.members ++
            [newMemberRow c2Step1.1 1 "Bo" "Bn" "bb" none],
          next_member_id := c2Step1.1.next_member_id + 1 } := by
    rw [c2Step2, ha2]
  have cores2 : c2Step2.1.members.map memberCore = [(1, "aa", 2), (2, "bb", 3)] := by
    rw [hdb2]
    show (c2Step1.1.members ++ [newMemberRow c2Step1.1 1 "Bo" "Bn" "bb" none]).map
      memberCore = _
    rw [List.map_append, cores1]
    simp only [List.map_cons, List.map_nil, memberCore_newMemberRow, nid1, r2]
    decide
  have hsk2 : c2Step2.1.skipped_numbers = ∅ := by
    rw [hdb2]
    exact hsk1
  have classes2 : c2Step2.1.classes = [⟨1, "Alpha", 1⟩] := by
    rw [hdb2]
    exact classes1
  have hfind : _member_id_by_nick c2Step2.1 "bb" = some 2 := by
    rw [member_id_by_nick_of_cores, cores2]
    decide
  have cores3 : c2Step3.members.map memberCore = [(1, "aa", 2)] := by
    rw [c2Step3, remove_member_members _ _ _ hfind, filter_id_cores, cores2]
    decide
  have rolls3 : c2Step3.members.map (fun m => m.roll_number) = [2] := by
    rw [rolls_of_cores, cores3]
    decide
  have hsk3 : c2Step3.skipped_numbers = ∅ := by
    rw [c2Step3, remove_member_skipped]
    exact hsk2
  have classes3 : c2Step3.classes = [⟨1, "Alpha", 1⟩] := by
    rw [c2Step3, remove_member_classes]
    exact classes2
  have maxr3 : maxRoll c2Step3.members = some 2 := by
    rw [maxRoll, rolls3]
    decide
  have he4 : _ensure_class c2Step3 "Alpha" = .ok (some 1, c2Step3) := by
    apply ensure_class_of_found
    unfold _class_id
    rw [classes3]
    decide
  have ha4 := add_member_ok c2Step3 "Alpha" "Cy" "Cn" "cc" none he4
  have e4 : c2Step4.2 = .ok 3 := by
    rw [c2Step4, ha4]
    show Except.ok (_next_roll_number c2Step3) = _
    rw [next_roll_no_skip _ (by rw [maxr3, hsk3]; decide), maxr3]
    rfl
  exact ⟨e2, rolls3, e4⟩

/-- C2 (amended): a sequence number is never reused while its holder — indeed
while any person with an equal or greater number — remains in the store:
every sequence number `add_member` returns is strictly greater than every
live member's number.  (After the person holding the maximum number is
deleted, the allocator's base drops and that number can be reassigned, as the
counterexample shows.) -/
theorem assigned_roll_not_reused_while_holder_present (db : DB)
    (cn fn ln nk : String) (bio : Option String) (m : MemberRow) (r : ℕ)
    (hm : m ∈ db.members) (h : (add_member db cn fn ln nk bio).2 = .ok r) :
    m.roll_number < r := by
  unfold add_member at h
  split at h
  · exact absurd h (by simp)
  · exact absurd h (by simp)
  · rename_i cid db1 heq
    simp only [Except.ok.injEq] at h
    subst h
    obtain ⟨hmm, -, -⟩ := ensure_class_ok_fields db cn heq
    have hgt := next_roll_gt_max db1
    rw [hmm] at hgt
    have hmem : m.roll_number ∈ db.members.map (fun x => x.roll_number) :=
      List.mem_map_of_mem _ hm
    cases hmax : maxRoll db.members with
    | none =>
        rw [maxRoll, List.max?_eq_none_iff] at hmax
        rw [hmax] at hmem
        simp at hmem
    | some M =>
        have hle := (List.max?_eq_some_iff'.mp (show (db.members.map
          (fun x => x.roll_number)).max? = some M from hmax)).2 _ hmem
        rw [hmax] at hgt
        simp only [Option.getD_some] at hgt
        omega

/-- Witness for C2's amended theorem: in the one-member witness store, the
member's roll 2 is strictly below the returned allocation 3. -/
theorem assigned_roll_not_reused_witness :
    c2WitnessRow.roll_number < 3 := by
  have he : _ensure_class c2WitnessDB "Alpha" = .ok (some 1, c2WitnessDB) :=
    ensure_class_of_found _ _ (by decide)
  have h2 : (add_member c2WitnessDB "Alpha" "Cy" "Cn" "cc" none).2 = .ok 3 := by
    rw [add_member_ok c2WitnessDB "Alpha" "Cy" "Cn" "cc" none he]
    show Except.ok (_next_roll_number c2WitnessDB) = _
    rw [next_roll_no_skip _ (by decide),
      show (maxRoll c2WitnessDB.members).getD 1 + 1 = 3 from by decide]
  exact assigned_roll_not_reused_while_holder_present c2WitnessDB "Alpha" "Cy"
    "Cn" "cc" none c2WitnessRow 3 (by decide) h2

/-- C4 counterexample: on the empty store (where class "Alpha" does not
exist) `add_member` does not fail at all — it creates the class and inserts
the person, returning roll number 2; the set of groups changes and a person
is created. -/
theorem create_person_missing_group_counterexample :
    _class_id emptyDB "Alpha" = none ∧
    (add_member emptyDB "Alpha" "Jane" "Doe" "JD" none).2 = .ok 2 ∧
    (add_member emptyDB "Alpha" "Jane" "Doe" "JD" none).1.classes =
      [⟨1, "Alpha", 1⟩] ∧
    (add_member emptyDB "Alpha" "Jane" "Doe" "JD" none).1.members.length = 1 := by
  have he : _ensure_class emptyDB "Alpha" =
      .ok (some 1, classInserted emptyDB "Alpha") := rfl
  have hok := add_member_ok emptyDB "Alpha" "Jane" "Doe" "JD" none he
  refine ⟨by decide, ?_, ?_, ?_⟩
  · rw [hok]
    show Except.ok (_next_roll_number (classInserted emptyDB "Alpha")) = _
    rw [next_roll_no_skip _ (by decide),
      show (maxRoll (classInserted emptyDB "Alpha").members).getD 1 + 1 = 2
        from by decide]
  · rw [hok]
    decide
  · rw [hok]
    show ((classInserted emptyDB "Alpha").members ++
      [newMemberRow (classInserted emptyDB "Alpha") 1 "Jane" "Doe" "JD" none]).length = 1
    rw [List.length_append]
    decide

/-- C4 (amended): `create_person` never fails with NotFound when the named
group is missing.  `_ensure_class` inserts the group with the *trimmed* name
and re-resolves the id by the *untrimmed* name, so: for an already-trimmed
name the person is created in the fresh group and its roll number returned;
for a padded name the call fails with an IntegrityError — the UNIQUE
class-name constraint when a trimmed twin already exists (store unchanged),
otherwise the NOT NULL constraint on the member's class id, the freshly
committed trimmed group remaining — and in every failing case no person is
created. -/
theorem create_person_creates_missing_group (db : DB) (cn fn ln nk : String)
    (bio : Option String) (h : _class_id db cn = none) :
    (stripStr cn = cn →
      add_member db cn fn ln nk bio =
        ({ classInserted db cn with
            members := (classInserted db cn).members ++
              [newMemberRow (classInserted db cn) db.next_class_id fn ln nk bio],
            next_member_id := (classInserted db cn).next_member_id + 1 },
          .ok (_next_roll_number (classInserted db cn)))) ∧
    (¬ stripStr cn = cn →
      ((db.classes.find? (fun c => c.name = stripStr cn)).isSome = true →
        add_member db cn fn ln nk bio =
          (db, .error "UNIQUE constraint failed: classes.name")) ∧
      ((db.classes.find? (fun c => c.name = stripStr cn)).isSome = false →
        add_member db cn fn ln nk bio =
          (classInserted db cn,
            .error "NOT NULL constraint failed: members.class_id"))) := by
  have hfind : db.classes.find? (fun c => c.name = cn) = none := by
    unfold _class_id at h
    cases hf : db.classes.find? (fun c => c.name = cn) with
    | none => rfl
    | some c => rw [hf] at h; simp at h
  constructor
  · intro hstrip
    have htwin : (db.classes.find? (fun c => c.name = stripStr cn)).isSome = false := by
      rw [hstrip, hfind]
      rfl
    have hcid : _class_id (classInserted db cn) cn = some db.next_class_id := by
      unfold _class_id classInserted
      rw [List.find?_append, hfind]
      rw [hstrip]
      rw [List.find?_cons_of_pos _ (by simp)]
      simp
    have he : _ensure_class db cn =
        .ok (some db.next_class_id, classInserted db cn) := by
      unfold _ensure_class
      rw [h, if_neg (by simp [htwin]), hcid]
    exact add_member_ok db cn fn ln nk bio he
  · intro hstrip
    constructor
    · intro htwin
      unfold add_member _ensure_class
      rw [h, if_pos htwin]
    · intro hnotwin
      have hcid : _class_id (classInserted db cn) cn = none := by
        unfold _class_id classInserted
        rw [List.find?_append, hfind]
        rw [List.find?_cons_of_neg _ (by simp [hstrip])]
        simp
      have he : _ensure_class db cn = .ok (none, classInserted db cn) := by
        unfold _ensure_class
        rw [h, if_neg (by simp [hnotwin]), hcid]
      unfold add_member
      rw [he]

/-- Witness for C4's amended theorem, both cases on the empty store: the
trimmed name "Alpha" succeeds and creates group and person; the padded name
" Beta " creates the trimmed group "Beta" yet fails the member insert, so no
person is created. -/
theorem create_person_creates_missing_group_witness :
    add_member emptyDB "Alpha" "Jo" "Mo" "jm" none =
      ({ classInserted emptyDB "Alpha" with
          members := (classInserted emptyDB "Alpha").members ++
            [newMemberRow (classInserted emptyDB "Alpha") 1 "Jo" "Mo" "jm" none],
          next_member_id := (classInserted emptyDB "Alpha").next_member_id + 1 },
        .ok (_next_roll_number (classInserted emptyDB "Alpha"))) ∧
    add_member emptyDB " Beta " "Jo" "Mo" "jm" none =
      (classInserted emptyDB " Beta ",
        .error "NOT NULL constraint failed: members.class_id") := by
  constructor
  · exact (create_person_creates_missing_group emptyDB "Alpha" "Jo" "Mo" "jm"
      none (by decide)).1 (by decide)
  · exact ((create_person_creates_missing_group emptyDB " Beta " "Jo" "Mo" "jm"
      none (by decide)).2 (by decide)).2 (by decide)

/-!  ## Lemmas about lookups  -/

/-- Membership in a `lookup_members` result: exactly the joined rows
satisfying the conjunction of the provided criteria. -/
theorem mem_lookup_members (db : DB) (first last nick : Option String)
    (number : Option ℕ) (r : FoundRow) :
    r ∈ lookup_members db first last nick number ↔
      ∃ p, p ∈ joinedMembers db ∧
        lookupMatches first last nick number p.1 = true ∧
        r = ⟨p.1.roll_number, p.1.first_name, p.1.nickname, p.1.last_name, p.2⟩ := by
  unfold lookup_members
  rw [List.mem_mergeSort, List.mem_map]
  constructor
  · rintro ⟨p, hp, rfl⟩
    obtain ⟨hmem, hmatch⟩ := List.mem_filter.mp hp
    exact ⟨p, hmem, hmatch, rfl⟩
  · rintro ⟨p, hmem, hmatch, rfl⟩
    exact ⟨p, List.mem_filter.mpr ⟨hmem, hmatch⟩, rfl⟩

/-- Dropping the nickname criterion can only enlarge the matching set. -/
theorem lookupMatches_drop_nick (first last nick : Option String)
    (number : Option ℕ) (m : MemberRow)
    (h : lookupMatches first last nick number m = true) :
    lookupMatches first last none number m = true := by
  unfold lookupMatches at h ⊢
  simp only [Bool.and_eq_true] at h ⊢
  exact ⟨⟨⟨h.1.1.1, h.1.1.2⟩, by simp [strGiven]⟩, h.2⟩

/-- C3 counterexample: in the two-member store, Jane Doe matches the single
criterion `first = "Jane"` on its own, yet querying with the two criteria
`first = "Jane"` and `nickname = "ab"` returns no row at all — a person
matching one provided criterion is dropped, and adding a criterion narrowed
the result instead of broadening it. -/
theorem find_person_or_semantics_counterexample :
    lookup_members c3DB (some "Jane") none (some "ab") none = [] ∧
    lookup_members c3DB (some "Jane") none none none =
      [⟨2, "Jane", "jd", "Doe", "Alpha"⟩] := by
  constructor
  · have h : (joinedMembers c3DB).filter
        (fun p => lookupMatches (some "Jane") none (some "ab") none p.1) = [] := by
      decide
    unfold lookup_members
    rw [h]
    simp [List.mergeSort_nil]
  · have h : (joinedMembers c3DB).filter
        (fun p => lookupMatches (some "Jane") none none none p.1) =
        [(mkRow 1 1 "Jane" "Doe" "jd" "Jane Doe" 1 2, "Alpha")] := by
      decide
    unfold lookup_members
    rw [h]
    simp only [List.map_cons, List.map_nil, List.mergeSort_singleton]
    decide

/-- C3 (amended): in the multi-result lookup the provided criteria are
combined by AND, not OR — a row is returned exactly when it satisfies every
provided criterion, so adding a criterion narrows the result set — and the
results are ordered by sequence number ascending. -/
theorem lookup_members_and_semantics (db : DB) (first last nick : Option String)
    (number : Option ℕ) :
    (∀ r, r ∈ lookup_members db first last nick number ↔
      ∃ p, p ∈ joinedMembers db ∧
        lookupMatches first last nick number p.1 = true ∧
        r = ⟨p.1.roll_number, p.1.first_name, p.1.nickname, p.1.last_name, p.2⟩) ∧
    List.Sorted (fun a b => a.roll_number ≤ b.roll_number)
      (lookup_members db first last nick number) ∧
    (∀ r, r ∈ lookup_members db first last nick number →
      r ∈ lookup_members db first last none number) := by
  refine ⟨fun r => mem_lookup_members db first last nick number r, ?_, ?_⟩
  · have hs := @List.sorted_mergeSort FoundRow
      (fun a b => decide (a.roll_number ≤ b.roll_number))
      (fun a b c hab hbc => by
        simp only [decide_eq_true_eq] at hab hbc ⊢
        omega)
      (fun a b => by
        simp only [Bool.or_eq_true, decide_eq_true_eq]
        omega)
      (((joinedMembers db).filter
          (fun p => lookupMatches first last nick number p.1)).map
        (fun p => FoundRow.mk p.1.roll_number p.1.first_name p.1.nickname
          p.1.last_name p.2))
    refine List.Pairwise.imp ?_ hs
    intro a b h
    simpa using h
  · intro r hr
    obtain ⟨p, hmem, hmatch, hre⟩ :=
      (mem_lookup_members db first last nick number r).mp hr
    exact (mem_lookup_members db first last none number r).mpr
      ⟨p, hmem, lookupMatches_drop_nick first last nick number p.1 hmatch, hre⟩

/-- Witness for C3's amended theorem: the criteria-conjunction query on the
concrete two-member store, instantiated from the amended theorem. -/
theorem lookup_members_and_semantics_witness :
    List.Sorted (fun a b : FoundRow => a.roll_number ≤ b.roll_number)
      (lookup_members c3DB (some "Jane") none (some "ab") none) :=
  (lookup_members_and_semantics c3DB (some "Jane") none (some "ab") none).2.1

/-- C10: `get_member_card_by` with no criterion provided (no number, and each
string field absent or empty) returns `None` — the `WHERE` list is empty and
the function bails out before querying.  (The source function only performs
`SELECT`s, so it is embedded as a pure function of the store.) -/
theorem get_member_card_by_no_criteria (db : DB) (f : CardQuery)
    (h1 : f.number = none) (h2 : strGiven f.first = false)
    (h3 : strGiven f.last = false) (h4 : strGiven f.nick = false) :
    get_member_card_by db f = none := by
  unfold get_member_card_by
  rw [if_pos]
  simp [h1, h2, h3, h4]

/-- Witness for C10: the all-absent query on a one-member store. -/
theorem get_member_card_by_no_criteria_witness :
    get_member_card_by c10DB ⟨none, none, some "", none⟩ = none :=
  get_member_card_by_no_criteria c10DB ⟨none, none, some "", none⟩
    rfl rfl (by decide) rfl

/-!  ## Export and rename  -/

/-- C5: evaluated on a store with one person, the export fails with the
pandas length-mismatch error — the platform columns are built from a
comprehension over the empty list (the source's "noop placeholder"), so for
any non-empty roster the column assignment raises instead of producing the
flattened social-handle columns the spec describes. -/
theorem export_roster_dataframe_crashes_on_nonempty :
    export_roster_dataframe c5DB =
      .error "Length of values does not match length of index" := by
  unfold export_roster_dataframe
  rw [show joinedMembers c5DB =
    [(mkRow 1 1 "Jane" "Doe" "jd" "Jane Doe" 1 2, "Alpha")] from by decide]
  rw [List.mergeSort_singleton]
  rfl

/-- C8: a successful `update_member_name` (in particular a nickname rename)
leaves the `family` and `member_socials` tables untouched and keeps every
member's internal id, so the parent, children and per-platform handles of
every person resolve identically before and after — the edges and handles are
keyed by the internal id, not by the nickname string. -/
theorem rename_preserves_family_and_socials (db : DB) (nickname : String)
    (fn ln nn hon : Option String) (db' : DB)
    (h : update_member_name db nickname fn ln nn hon = .ok db') :
    db'.family = db.family ∧ db'.member_socials = db.member_socials ∧
    db'.members.map (fun m => m.id) = db.members.map (fun m => m.id) ∧
    ∀ mid, parentIdOf db' mid = parentIdOf db mid ∧
      childIdsOf db' mid = childIdsOf db mid ∧
      socialsOf db' mid = socialsOf db mid := by
  unfold update_member_name at h
  split at h
  · simp at h
  · split at h
    · injection h with h
      subst h
      exact ⟨rfl, rfl, rfl, fun mid => ⟨rfl, rfl, rfl⟩⟩
    · injection h with h
      subst h
      refine ⟨rfl, rfl, ?_, fun mid => ⟨rfl, rfl, rfl⟩⟩
      show (db.members.map _).map _ = _
      rw [List.map_map]
      apply List.map_congr_left
      intro m _
      simp only [Function.comp_apply]
      split <;> rfl

/-- Witness for C8: renaming "jd" to "newjd" in the concrete store, where
"jd" has a parent, a child and an instagram handle. -/
theorem rename_preserves_family_and_socials_witness :
    c8DBAfter.family = c8DB.family ∧
    parentIdOf c8DBAfter 1 = parentIdOf c8DB 1 ∧
    childIdsOf c8DBAfter 1 = childIdsOf c8DB 1 ∧
    socialsOf c8DBAfter 1 = socialsOf c8DB 1 := by
  have h := rename_preserves_family_and_socials c8DB "jd" none none
    (some "newjd") none c8DBAfter (by rfl)
  exact ⟨h.1, (h.2.2.2 1).1, (h.2.2.2 1).2.1, (h.2.2.2 1).2.2⟩

/-- C9: the frame property of the per-record update *as the loop body is
written* (the loop is unreachable — see
`import_roster_dataframe_never_runs`): when a record matches an existing
person (by case-insensitive nickname or first+last pair), the update rewrites
only that member's row; `full_name` is always recomputed, each column absent
from the record keeps its old value, and the member's sequence number, class
membership and display position — as well as every column outside the contact
map — are untouched.  Other tables and every other member are left as they
were. -/
theorem import_update_only_present_columns (db : DB) (cid : ℕ) (cm : Bool)
    (rec : ImportRec) (m : MemberRow)
    (h1 : ¬ (stripStr rec.first_name = "" ∨ stripStr rec.last_name = "" ∨
      stripStr rec.nickname = ""))
    (h2 : findImportMatch db (stripStr rec.nickname) (stripStr rec.first_name)
      (stripStr rec.last_name) = some m) :
    (importRecord db cid cm rec).members =
      db.members.map (fun x =>
        if x.id = m.id then
          applyImportUpdate rec (stripStr rec.first_name)
            (stripStr rec.last_name) x
        else x) ∧
    (importRecord db cid cm rec).classes = db.classes ∧
    ∀ x : MemberRow,
      (applyImportUpdate rec (stripStr rec.first_name) (stripStr rec.last_name)
          x).roll_number = x.roll_number ∧
      (applyImportUpdate rec (stripStr rec.first_name) (stripStr rec.last_name)
          x).class_id = x.class_id ∧
      (applyImportUpdate rec (stripStr rec.first_name) (stripStr rec.last_name)
          x).join_order = x.join_order ∧
      (applyImportUpdate rec (stripStr rec.first_name) (stripStr rec.last_name)
          x).id = x.id ∧
      (applyImportUpdate rec (stripStr rec.first_name) (stripStr rec.last_name)
          x).honorific = x.honorific ∧
      (applyImportUpdate rec (stripStr rec.first_name) (stripStr rec.last_name)
          x).bio = x.bio ∧
      (applyImportUpdate rec (stripStr rec.first_name) (stripStr rec.last_name)
          x).age = x.age ∧
      (applyImportUpdate rec (stripStr rec.first_name) (stripStr rec.last_name)
          x).discord_handle = x.discord_handle ∧
      (applyImportUpdate rec (stripStr rec.first_name) (stripStr rec.last_name)
          x).full_name =
        stripStr rec.first_name ++ " " ++ stripStr rec.last_name ∧
      (rec.phone = none →
        (applyImportUpdate rec (stripStr rec.first_name)
            (stripStr rec.last_name) x).phone = x.phone) ∧
      (rec.su_email = none →
        (applyImportUpdate rec (stripStr rec.first_name)
            (stripStr rec.last_name) x).su_email = x.su_email) ∧
      (rec.personal_email = none →
        (applyImportUpdate rec (stripStr rec.first_name)
            (stripStr rec.last_name) x).personal_email = x.personal_email) ∧
      (rec.su_id = none →
        (applyImportUpdate rec (stripStr rec.first_name)
            (stripStr rec.last_name) x).su_id = x.su_id) ∧
      (rec.standing = none →
        (applyImportUpdate rec (stripStr rec.first_name)
            (stripStr rec.last_name) x).standing = x.standing) ∧
      (rec.major = none →
        (applyImportUpdate rec (stripStr rec.first_name)
            (stripStr rec.last_name) x).major = x.major) ∧
      (rec.ethnicity = none →
        (applyImportUpdate rec (stripStr rec.first_name)
            (stripStr rec.last_name) x).ethnicity = x.ethnicity) ∧
      (rec.hometown = none →
        (applyImportUpdate rec (stripStr rec.first_name)
            (stripStr rec.last_name) x).hometown = x.hometown) ∧
      (rec.shirt_size = none →
        (applyImportUpdate rec (stripStr rec.first_name)
            (stripStr rec.last_name) x).shirt_size = x.shirt_size) ∧
      (rec.birthday = none →
        (applyImportUpdate rec (stripStr rec.first_name)
            (stripStr rec.last_name) x).birthday = x.birthday) ∧
      (rec.lineage = none →
        (applyImportUpdate rec (stripStr rec.first_name)
            (stripStr rec.last_name) x).lineage = x.lineage) ∧
      (rec.personality16 = none →
        (applyImportUpdate rec (stripStr rec.first_name)
            (stripStr rec.last_name) x).personality16 = x.personality16) ∧
      (rec.love_language = none →
        (applyImportUpdate rec (stripStr rec.first_name)
            (stripStr rec.last_name) x).love_language = x.love_language) ∧
      (rec.fascination_advantage = none →
        (applyImportUpdate rec (stripStr rec.first_name)
            (stripStr rec.last_name) x).fascination_advantage =
          x.fascination_advantage) ∧
      (rec.notes = none →
        (applyImportUpdate rec (stripStr rec.first_name)
            (stripStr rec.last_name) x).notes = x.notes) ∧
      (rec.interest = none →
        (applyImportUpdate rec (stripStr rec.first_name)
            (stripStr rec.last_name) x).interest = x.interest) := by
  refine ⟨?_, ?_, ?_⟩
  · unfold importRecord
    rw [if_neg h1, h2]
  · unfold importRecord
    rw [if_neg h1, h2]
  · intro x
    refine ⟨rfl, rfl, rfl, rfl, rfl, rfl, rfl, rfl, rfl, ?_, ?_, ?_, ?_, ?_,
      ?_, ?_, ?_, ?_, ?_, ?_, ?_, ?_, ?_, ?_, ?_⟩ <;>
      intro hnone <;>
      simp [applyImportUpdate, hnone, _clean_phone]

/-!  ## Lemmas about the display-ordering engine  -/

theorem sortsBefore_irrefl (st : OrdState) (i : ℕ) : ¬ sortsBefore st i i := by
  unfold sortsBefore
  simp

theorem sortsBefore_trans (st : OrdState) {i j k : ℕ}
    (h1 : sortsBefore st i j) (h2 : sortsBefore st j k) :
    sortsBefore st i k := by
  unfold sortsBefore at h1 h2 ⊢
  rcases h1 with h1 | ⟨h1, h1'⟩ <;> rcases h2 with h2 | ⟨h2, h2'⟩
  · exact Or.inl (lt_trans h1 h2)
  · exact Or.inl (h2 ▸ h1)
  · exact Or.inl (h1 ▸ h2)
  · exact Or.inr ⟨h1.trans h2, lt_trans h1' h2'⟩

theorem sortsBefore_total (st : OrdState) {i j : ℕ} (hne : i ≠ j) :
    sortsBefore st i j ∨ sortsBefore st j i := by
  unfold sortsBefore
  rcases lt_trichotomy (st.pos i) (st.pos j) with h | h | h
  · exact Or.inl (Or.inl h)
  · rcases Nat.lt_or_ge i j with hij | hij
    · exact Or.inl (Or.inr ⟨h, hij⟩)
    · exact Or.inr (Or.inr ⟨h.symm, lt_of_le_of_ne hij (Ne.symm hne)⟩)
  · exact Or.inr (Or.inl h)

theorem rankIn_lt_of_sortsBefore (st : OrdState) (c : ℕ) {i j : ℕ}
    (hi : i ∈ clsIds st c) (hb : sortsBefore st i j) :
    rankIn st c i < rankIn st c j := by
  unfold rankIn
  have hsub : (clsIds st c).filter (fun k => sortsBefore st k i) ⊆
      (clsIds st c).filter (fun k => sortsBefore st k j) := by
    intro k hk
    rw [Finset.mem_filter] at hk ⊢
    exact ⟨hk.1, sortsBefore_trans st hk.2 hb⟩
  have hlt : ((clsIds st c).filter (fun k => sortsBefore st k i)).card <
      ((clsIds st c).filter (fun k => sortsBefore st k j)).card := by
    apply Finset.card_lt_card
    refine ⟨hsub, fun hsub' => ?_⟩
    have hij : i ∈ (clsIds st c).filter (fun k => sortsBefore st k j) :=
      Finset.mem_filter.mpr ⟨hi, hb⟩
    have := Finset.mem_filter.mp (hsub' hij)
    exact sortsBefore_irrefl st i this.2
  omega

theorem rankIn_lt_iff (st : OrdState) (c : ℕ) {i j : ℕ}
    (hi : i ∈ clsIds st c) (hj : j ∈ clsIds st c) (hne : i ≠ j) :
    rankIn st c i < rankIn st c j ↔ sortsBefore st i j := by
  constructor
  · intro hlt
    rcases sortsBefore_total st hne with h | h
    · exact h
    · exact absurd (rankIn_lt_of_sortsBefore st c hj h) (by omega)
  · exact rankIn_lt_of_sortsBefore st c hi

theorem rankIn_injOn (st : OrdState) (c : ℕ) {i j : ℕ}
    (hi : i ∈ clsIds st c) (hj : j ∈ clsIds st c)
    (h : rankIn st c i = rankIn st c j) : i = j := by
  by_contra hne
  rcases sortsBefore_total st hne with hb | hb
  · exact absurd (rankIn_lt_of_sortsBefore st c hi hb) (by omega)
  · exact absurd (rankIn_lt_of_sortsBefore st c hj hb) (by omega)

theorem rankIn_pos (st : OrdState) (c : ℕ) (i : ℕ) : 1 ≤ rankIn st c i := by
  unfold rankIn
  omega

theorem rankIn_le_card (st : OrdState) (c : ℕ) {i : ℕ} (hi : i ∈ clsIds st c) :
    rankIn st c i ≤ (clsIds st c).card := by
  unfold rankIn
  have hlt : ((clsIds st c).filter (fun k => sortsBefore st k i)).card <
      (clsIds st c).card := by
    apply Finset.card_lt_card
    refine ⟨Finset.filter_subset _ _, fun hsub => ?_⟩
    have := Finset.mem_filter.mp (hsub hi)
    exact sortsBefore_irrefl st i this.2
  omega

/-- The ranks assigned over a class are exactly `1..N`. -/
theorem rankIn_image (st : OrdState) (c : ℕ) :
    (clsIds st c).image (rankIn st c) = Finset.Icc 1 (clsIds st c).card := by
  apply Finset.eq_of_subset_of_card_le
  · intro r hr
    obtain ⟨i, hi, rfl⟩ := Finset.mem_image.mp hr
    exact Finset.mem_Icc.mpr ⟨rankIn_pos st c i, rankIn_le_card st c hi⟩
  · rw [Nat.card_Icc]
    rw [Finset.card_image_of_injOn (fun i hi j hj h => rankIn_injOn st c hi hj h)]
    omega

/-- Renormalization always leaves a class with dense integer positions
`1..N`. -/
theorem renormalize_dense (st : OrdState) (c : ℕ) :
    DensePositions (_renormalize_join_order st c) c := by
  have hcls : clsIds (_renormalize_join_order st c) c = clsIds st c := rfl
  constructor
  · rw [hcls]
    have himg : (clsIds st c).image (_renormalize_join_order st c).pos =
        (clsIds st c).image (fun i => ((rankIn st c i : ℕ) : ℚ)) := by
      apply Finset.image_congr
      intro i hi
      have hi' : i ∈ clsIds st c := Finset.mem_coe.mp hi
      show (if i ∈ clsIds st c then ((rankIn st c i : ℕ) : ℚ) else st.pos i) = _
      rw [if_pos hi']
    rw [himg, show (fun i => ((rankIn st c i : ℕ) : ℚ)) =
      (fun k : ℕ => (k : ℚ)) ∘ rankIn st c from rfl, ← Finset.image_image,
      rankIn_image]
  · intro i hi j hj hpos
    rw [hcls] at hi hj
    have hpi : (_renormalize_join_order st c).pos i = ((rankIn st c i : ℕ) : ℚ) := by
      show (if i ∈ clsIds st c then _ else _) = _
      rw [if_pos hi]
    have hpj : (_renormalize_join_order st c).pos j = ((rankIn st c j : ℕ) : ℚ) := by
      show (if j ∈ clsIds st c then _ else _) = _
      rw [if_pos hj]
    rw [hpi, hpj] at hpos
    exact rankIn_injOn st c hi hj (by exact_mod_cast hpos)

/-- In a class with dense positions `1..N`, every member's position already
equals its renormalization rank. -/
theorem dense_pos_eq_rank (st : OrdState) (c : ℕ) (hd : DensePositions st c)
    {i : ℕ} (hi : i ∈ clsIds st c) : st.pos i = (rankIn st c i : ℚ) := by
  obtain ⟨k, hk, hki⟩ : ∃ k ∈ Finset.Icc 1 (clsIds st c).card,
      ((k : ℕ) : ℚ) = st.pos i := by
    have hmem : st.pos i ∈ (clsIds st c).image st.pos :=
      Finset.mem_image_of_mem _ hi
    rw [hd.1] at hmem
    exact Finset.mem_image.mp hmem
  obtain ⟨hk1, hkN⟩ := Finset.mem_Icc.mp hk
  have hfilter : (clsIds st c).filter (fun j => sortsBefore st j i) =
      (clsIds st c).filter (fun j => st.pos j < st.pos i) := by
    apply Finset.filter_congr
    intro j hj
    unfold sortsBefore
    constructor
    · rintro (h | ⟨heq, hlt⟩)
      · exact h
      · have := hd.2 j hj i hi heq
        omega
    · exact fun h => Or.inl h
  have hcount : ((clsIds st c).filter (fun j => st.pos j < st.pos i)).card =
      k - 1 := by
    have hinj : Set.InjOn st.pos ↑(clsIds st c) := fun x hx y hy hxy =>
      hd.2 x (Finset.mem_coe.mp hx) y (Finset.mem_coe.mp hy) hxy
    have h1 : ((clsIds st c).filter (fun j => st.pos j < st.pos i)).card =
        (((clsIds st c).filter (fun j => st.pos j < st.pos i)).image
          st.pos).card := by
      rw [Finset.card_image_of_injOn
        (hinj.mono (Finset.coe_subset.mpr (Finset.filter_subset _ _)))]
    have h2 : ((clsIds st c).filter (fun j => st.pos j < st.pos i)).image
        st.pos = ((clsIds st c).image st.pos).filter (fun q => q < st.pos i) :=
      (@Finset.filter_image ℕ ℚ _ st.pos (clsIds st c)
        (fun q => q < st.pos i) _).symm
    have h3 : ((Finset.Icc 1 (clsIds st c).card).image
        (fun m : ℕ => (m : ℚ))).filter (fun q => q < st.pos i) =
        ((Finset.Icc 1 (clsIds st c).card).filter
          (fun m : ℕ => ((m : ℚ) < st.pos i))).image (fun m : ℕ => (m : ℚ)) :=
      @Finset.filter_image ℕ ℚ _ (fun m : ℕ => (m : ℚ))
        (Finset.Icc 1 (clsIds st c).card) (fun q => q < st.pos i) _
    have h4 : (Finset.Icc 1 (clsIds st c).card).filter
        (fun m : ℕ => ((m : ℚ) < st.pos i)) = Finset.Ico 1 k := by
      ext m
      rw [Finset.mem_filter, Finset.mem_Icc, Finset.mem_Ico, ← hki]
      constructor
      · rintro ⟨⟨hm1, hm2⟩, hmk⟩
        exact ⟨hm1, by exact_mod_cast hmk⟩
      · rintro ⟨hm1, hmk⟩
        exact ⟨⟨hm1, by omega⟩, by exact_mod_cast hmk⟩
    rw [h1, h2, hd.1, h3, h4,
      Finset.card_image_of_injOn (fun x _ y _ hxy => by exact_mod_cast hxy),
      Nat.card_Ico]
  rw [← hki]
  unfold rankIn
  rw [hfilter, hcount]
  congr 1
  omega

/-- Field-wise equality of ordering states. -/
theorem ordState_eq_of (s t : OrdState) (h1 : s.ids = t.ids)
    (h2 : s.cls = t.cls) (h3 : s.pos = t.pos) (h4 : s.roll = t.roll) :
    s = t := by
  cases s
  cases t
  subst h1
  subst h2
  subst h3
  subst h4
  rfl

/-- Renormalizing a class that already has dense positions `1..N` changes
nothing. -/
theorem renormalize_of_dense (st : OrdState) (c : ℕ)
    (hd : DensePositions st c) : _renormalize_join_order st c = st := by
  refine ordState_eq_of _ _ rfl rfl ?_ rfl
  funext i
  show (if i ∈ clsIds st c then ((rankIn st c i : ℕ) : ℚ) else st.pos i) = st.pos i
  by_cases hi : i ∈ clsIds st c
  · rw [if_pos hi, ← dense_pos_eq_rank st c hd hi]
  · rw [if_neg hi]

/-- A resolved roll number names a stored member carrying that roll. -/
theorem memberByRoll_mem (st : OrdState) {n a : ℕ}
    (h : memberByRoll st n = some a) : a ∈ st.ids ∧ st.roll a = n := by
  simp only [memberByRoll] at h
  split at h
  · injection h with h
    subst h
    have hmem := Finset.min'_mem (st.ids.filter (fun i => st.roll i = n))
      (by assumption)
    rw [Finset.mem_filter] at hmem
    exact ⟨hmem.1, by simpa using hmem.2⟩
  · exact absurd h (by simp)

theorem cast_ne_cast_add_half (x y : ℕ) : (x : ℚ) ≠ (y : ℚ) + 1/2 := by
  intro h
  have h2 : ((2 * x : ℕ) : ℚ) = ((2 * y + 1 : ℕ) : ℚ) := by
    push_cast
    linarith
  have h3 : 2 * x = 2 * y + 1 := by exact_mod_cast h2
  omega

theorem cast_lt_cast_add_half_iff (x y : ℕ) :
    (x : ℚ) < (y : ℚ) + 1/2 ↔ x ≤ y := by
  constructor
  · intro h
    by_contra hx
    push_neg at hx
    have : (y : ℚ) + 1 ≤ (x : ℚ) := by exact_mod_cast hx
    linarith
  · intro h
    have : (x : ℚ) ≤ (y : ℚ) := by exact_mod_cast h
    linarith

/-- The three `UPDATE`s of `swap_display_positions` (park a at −1, move b to
a's old position, move a to b's old position) amount to precomposing the
position column with the transposition of a and b. -/
theorem update_chain_eq_swap (p : ℕ → ℚ) (a b : ℕ) (hne : a ≠ b) :
    Function.update (Function.update (Function.update p a (-1)) b (p a)) a (p b) =
      fun i => p (Equiv.swap a b i) := by
  funext i
  rcases eq_or_ne i a with rfl | hia
  · rw [Function.update_same, Equiv.swap_apply_left]
  · rw [Function.update_noteq hia]
    rcases eq_or_ne i b with rfl | hib
    · rw [Function.update_same, Equiv.swap_apply_right]
    · rw [Function.update_noteq hib, Function.update_noteq hia,
        Equiv.swap_apply_of_ne_of_ne hia hib]

/-- Exchanging the positions of two members of a class keeps the class's
positions dense. -/
theorem dense_comp_swap (st : OrdState) (c : ℕ) (hd : DensePositions st c)
    {a b : ℕ} (ha : a ∈ clsIds st c) (hb : b ∈ clsIds st c) :
    DensePositions { st with pos := fun i => st.pos (Equiv.swap a b i) } c := by
  have hσmem : ∀ i ∈ clsIds st c, Equiv.swap a b i ∈ clsIds st c := by
    intro i hi
    rcases eq_or_ne i a with rfl | hia
    · rw [Equiv.swap_apply_left]; exact hb
    · rcases eq_or_ne i b with rfl | hib
      · rw [Equiv.swap_apply_right]; exact ha
      · rw [Equiv.swap_apply_of_ne_of_ne hia hib]; exact hi
  have himgσ : (clsIds st c).image (fun i => Equiv.swap a b i) = clsIds st c := by
    apply Finset.eq_of_subset_of_card_le
    · intro x hx
      obtain ⟨i, hi, rfl⟩ := Finset.mem_image.mp hx
      exact hσmem i hi
    · rw [Finset.card_image_of_injective _ (Equiv.injective _)]
  constructor
  · show (clsIds st c).image (fun i => st.pos (Equiv.swap a b i)) =
      (Finset.Icc 1 (clsIds st c).card).image (fun k : ℕ => (k : ℚ))
    calc (clsIds st c).image (fun i => st.pos (Equiv.swap a b i))
        = ((clsIds st c).image (fun i => Equiv.swap a b i)).image st.pos := by
          rw [Finset.image_image]
          rfl
      _ = (clsIds st c).image st.pos := by rw [himgσ]
      _ = (Finset.Icc 1 (clsIds st c).card).image (fun k : ℕ => (k : ℚ)) := hd.1
  · intro i hi j hj h
    exact (Equiv.swap a b).injective (hd.2 _ (hσmem i hi) _ (hσmem j hj) h)

/-- `swap_display_positions` on two resolved same-class members: the three
updates followed by the renormalization of their class. -/
theorem swap_display_eq (st : OrdState) {na nb a b : ℕ}
    (ha : memberByRoll st na = some a) (hb : memberByRoll st nb = some b)
    (hcls : st.cls a = st.cls b) :
    swap_display_positions st na nb = .ok (_renormalize_join_order
      { st with pos := Function.update (Function.update
          (Function.update st.pos a (-1)) b (st.pos a)) a (st.pos b) }
      (st.cls a)) := by
  unfold swap_display_positions
  rw [ha, hb]
  show (if st.cls a ≠ st.cls b then
      Except.error "Members must be in the same class to swap display positions."
    else Except.ok (_renormalize_join_order
      { st with pos := Function.update (Function.update
          (Function.update st.pos a (-1)) b (st.pos a)) a (st.pos b) }
      (st.cls a))) = _
  rw [if_neg (fun hh => hh hcls)]

/-- C6: with both roll numbers resolving to distinct members of one group
whose display positions are dense integers `1..N`, swapping twice first
produces the exchanged (still dense) positions and then restores the store
exactly — every member of the group is back at its original display position,
and neither swap alters any roll number. -/
theorem swap_display_positions_self_inverse (st : OrdState) (na nb a b : ℕ)
    (ha : memberByRoll st na = some a) (hb : memberByRoll st nb = some b)
    (hne : a ≠ b) (hcls : st.cls a = st.cls b)
    (hd : DensePositions st (st.cls a)) :
    ∃ st1, swap_display_positions st na nb = .ok st1 ∧
      st1.roll = st.roll ∧
      swap_display_positions st1 na nb = .ok st := by
  have hmema := memberByRoll_mem st ha
  have hmemb := memberByRoll_mem st hb
  have haC : a ∈ clsIds st (st.cls a) := Finset.mem_filter.mpr ⟨hmema.1, rfl⟩
  have hbC : b ∈ clsIds st (st.cls a) := Finset.mem_filter.mpr ⟨hmemb.1, hcls.symm⟩
  have hchain : { st with pos := Function.update (Function.update
      (Function.update st.pos a (-1)) b (st.pos a)) a (st.pos b) } =
      { st with pos := fun i => st.pos (Equiv.swap a b i) } :=
    ordState_eq_of _ _ rfl rfl (update_chain_eq_swap st.pos a b hne) rfl
  have hd1 : DensePositions
      { st with pos := fun i => st.pos (Equiv.swap a b i) } (st.cls a) :=
    dense_comp_swap st (st.cls a) hd haC hbC
  have hs1 : swap_display_positions st na nb =
      .ok { st with pos := fun i => st.pos (Equiv.swap a b i) } := by
    rw [swap_display_eq st ha hb hcls, hchain, renormalize_of_dense _ _ hd1]
  refine ⟨_, hs1, rfl, ?_⟩
  have ha2 : memberByRoll
      { st with pos := fun i => st.pos (Equiv.swap a b i) } na = some a := ha
  have hb2 : memberByRoll
      { st with pos := fun i => st.pos (Equiv.swap a b i) } nb = some b := hb
  rw [swap_display_eq _ ha2 hb2 hcls]
  have hchain2 : { OrdState.mk st.ids st.cls
        (fun i => st.pos (Equiv.swap a b i)) st.roll with
      pos := Function.update (Function.update
        (Function.update (fun i => st.pos (Equiv.swap a b i)) a (-1)) b
          (st.pos (Equiv.swap a b a))) a (st.pos (Equiv.swap a b b)) } = st := by
    refine ordState_eq_of _ _ rfl rfl ?_ rfl
    calc Function.update (Function.update
          (Function.update (fun i => st.pos (Equiv.swap a b i)) a (-1)) b
            (st.pos (Equiv.swap a b a))) a (st.pos (Equiv.swap a b b))
        = fun i => st.pos (Equiv.swap a b (Equiv.swap a b i)) :=
          update_chain_eq_swap (fun i => st.pos (Equiv.swap a b i)) a b hne
      _ = st.pos := by
          funext i
          rw [Equiv.swap_apply_self]
  exact congrArg Except.ok (by rw [hchain2]; exact renormalize_of_dense st _ hd)

/-- Witness for C6: on the concrete two-member state, swapping rolls 2 and 3
twice hands back exactly the original state. -/
theorem swap_display_positions_self_inverse_witness :
    (swap_display_positions c6St 2 3).bind
      (fun st1 => swap_display_positions st1 2 3) = .ok c6St := by
  obtain ⟨st1, h1, _, h2⟩ := swap_display_positions_self_inverse c6St 2 3 1 2
    (by decide) (by decide) (by decide) rfl (by decide)
  rw [h1]
  exact h2

/-- The renormalized position of a class member is its rank. -/
theorem renorm_pos_of_mem (st : OrdState) (c : ℕ) {i : ℕ}
    (hi : i ∈ clsIds st c) :
    (_renormalize_join_order st c).pos i = (rankIn st c i : ℚ) := by
  show (if i ∈ clsIds st c then ((rankIn st c i : ℕ) : ℚ) else st.pos i) = _
  rw [if_pos hi]

/-- `move_display_after` on two resolved same-class members: the fractional
placement followed by the renormalization of their class. -/
theorem move_display_eq (st : OrdState) {ns nt s t : ℕ}
    (hs : memberByRoll st ns = some s) (ht : memberByRoll st nt = some t)
    (hcls : st.cls s = st.cls t) :
    move_display_after st ns nt = .ok (_renormalize_join_order
      { st with pos := Function.update st.pos s (st.pos t + 1/2) }
      (st.cls s)) := by
  unfold move_display_after
  rw [hs, ht]
  show (if st.cls s ≠ st.cls t then
      Except.error "Members must be in the same class to move display order."
    else Except.ok (_renormalize_join_order
      { st with pos := Function.update st.pos s (st.pos t + 1/2) }
      (st.cls s))) = _
  rw [if_neg (fun hh => hh hcls)]

/-- C7: with both roll numbers resolving to distinct members of one group
whose display positions are dense integers `1..N`, `move_after` followed by
the eager renormalization returns a state whose group positions are again
dense integers `1..N`, in which the moved member sits exactly one position
after the target, the relative order of all other members is unchanged, and
no roll number is altered. -/
theorem move_display_after_dense_spec (st : OrdState) (ns nt s t : ℕ)
    (hs : memberByRoll st ns = some s) (ht : memberByRoll st nt = some t)
    (hne : s ≠ t) (hcls : st.cls s = st.cls t)
    (hd : DensePositions st (st.cls s)) :
    ∃ st1, move_display_after st ns nt = .ok st1 ∧
      DensePositions st1 (st.cls s) ∧
      st1.pos s = st1.pos t + 1 ∧
      (∀ i ∈ clsIds st (st.cls s), ∀ j ∈ clsIds st (st.cls s),
        ¬ i = s → ¬ j = s → (st1.pos i < st1.pos j ↔ st.pos i < st.pos j)) ∧
      st1.roll = st.roll := by
  have hmems := memberByRoll_mem st hs
  have hmemt := memberByRoll_mem st ht
  have hsC : s ∈ clsIds st (st.cls s) := Finset.mem_filter.mpr ⟨hmems.1, rfl⟩
  have htC : t ∈ clsIds st (st.cls s) := Finset.mem_filter.mpr ⟨hmemt.1, hcls.symm⟩
  have hcast : ∀ j ∈ clsIds st (st.cls s),
      st.pos j = (rankIn st (st.cls s) j : ℚ) := fun j hj =>
    dense_pos_eq_rank st (st.cls s) hd hj
  -- the filter giving t's new rank
  have hrankt : rankIn
      { st with pos := Function.update st.pos s (st.pos t + 1/2) }
      (st.cls s) t =
      ((clsIds st (st.cls s)).filter
        (fun j => ¬ j = s ∧ st.pos j < st.pos t)).card + 1 := by
    unfold rankIn
    congr 1
    rw [show clsIds
      { st with pos := Function.update st.pos s (st.pos t + 1/2) }
      (st.cls s) = clsIds st (st.cls s) from rfl]
    congr 1
    apply Finset.filter_congr
    intro j hj
    unfold sortsBefore
    dsimp only
    rw [Function.update_noteq (Ne.symm hne)]
    constructor
    · intro hb
      rcases eq_or_ne j s with rfl | hjs
      · rw [Function.update_same] at hb
        rcases hb with hlt | ⟨heq, _⟩
        · exact absurd hlt (by linarith)
        · exact absurd heq (by intro hh; linarith)
      · rw [Function.update_noteq hjs] at hb
        rcases hb with hlt | ⟨heq, hjt⟩
        · exact ⟨hjs, hlt⟩
        · have := hd.2 j hj t htC heq
          omega
    · rintro ⟨hjs, hlt⟩
      rw [Function.update_noteq hjs]
      exact Or.inl hlt
  -- the filter giving s's new rank
  have hranks : rankIn
      { st with pos := Function.update st.pos s (st.pos t + 1/2) }
      (st.cls s) s =
      ((clsIds st (st.cls s)).filter
        (fun j => ¬ j = s ∧ st.pos j < st.pos t)).card + 2 := by
    unfold rankIn
    have hstep : (clsIds st (st.cls s)).filter
        (fun j => sortsBefore
          { st with pos := Function.update st.pos s (st.pos t + 1/2) } j s) =
        (clsIds st (st.cls s)).filter
          (fun j => (¬ j = s ∧ st.pos j < st.pos t) ∨ j = t) := by
      apply Finset.filter_congr
      intro j hj
      unfold sortsBefore
      dsimp only
      rw [Function.update_same]
      constructor
      · intro hb
        rcases eq_or_ne j s with rfl | hjs
        · rw [Function.update_same] at hb
          rcases hb with hlt | ⟨_, hss⟩
          · exact absurd hlt (lt_irrefl _)
          · omega
        · rw [Function.update_noteq hjs] at hb
          rcases hb with hlt | ⟨heq, _⟩
          · rw [hcast j hj, hcast t htC] at hlt
            have hle := (cast_lt_cast_add_half_iff _ _).mp hlt
            rcases Nat.lt_or_ge (rankIn st (st.cls s) j)
                (rankIn st (st.cls s) t) with hltr | hger
            · refine Or.inl ⟨hjs, ?_⟩
              rw [hcast j hj, hcast t htC]
              exact_mod_cast hltr
            · have heqr : rankIn st (st.cls s) j = rankIn st (st.cls s) t := by
                omega
              exact Or.inr (rankIn_injOn st (st.cls s) hj htC heqr)
          · rw [hcast j hj, hcast t htC] at heq
            exact absurd heq (cast_ne_cast_add_half _ _)
      · intro hb
        rcases hb with ⟨hjs, hlt⟩ | rfl
        · rw [Function.update_noteq hjs]
          refine Or.inl ?_
          rw [hcast j hj, hcast t htC] at hlt ⊢
          have hran : rankIn st (st.cls s) j < rankIn st (st.cls s) t := by
            exact_mod_cast hlt
          exact (cast_lt_cast_add_half_iff _ _).mpr (by omega)
        · rw [Function.update_noteq (Ne.symm hne)]
          exact Or.inl (by linarith)
    rw [show clsIds
      { st with pos := Function.update st.pos s (st.pos t + 1/2) }
      (st.cls s) = clsIds st (st.cls s) from rfl, hstep]
    have hsplit : (clsIds st (st.cls s)).filter
        (fun j => (¬ j = s ∧ st.pos j < st.pos t) ∨ j = t) =
        (clsIds st (st.cls s)).filter
          (fun j => ¬ j = s ∧ st.pos j < st.pos t) ∪ {t} := by
      ext j
      simp only [Finset.mem_filter, Finset.mem_union, Finset.mem_singleton]
      constructor
      · rintro ⟨hj, ⟨hjs, hlt⟩ | rfl⟩
        · exact Or.inl ⟨hj, hjs, hlt⟩
        · exact Or.inr rfl
      · rintro (⟨hj, hjs, hlt⟩ | rfl)
        · exact ⟨hj, Or.inl ⟨hjs, hlt⟩⟩
        · exact ⟨htC, Or.inr rfl⟩
    rw [hsplit, Finset.card_union_of_disjoint, Finset.card_singleton]
    rw [Finset.disjoint_singleton_right]
    simp only [Finset.mem_filter, not_and, not_lt]
    intro _ _
    exact le_refl _
  refine ⟨_, move_display_eq st hs ht hcls, renormalize_dense _ _, ?_, ?_, rfl⟩
  · rw [renorm_pos_of_mem _ _ (show s ∈ clsIds
        { st with pos := Function.update st.pos s (st.pos t + 1/2) }
        (st.cls s) from hsC),
      renorm_pos_of_mem _ _ (show t ∈ clsIds
        { st with pos := Function.update st.pos s (st.pos t + 1/2) }
        (st.cls s) from htC),
      hranks, hrankt]
    push_cast
    ring
  · intro i hi j hj his hjs
    rw [renorm_pos_of_mem _ _ (show i ∈ clsIds
        { st with pos := Function.update st.pos s (st.pos t + 1/2) }
        (st.cls s) from hi),
      renorm_pos_of_mem _ _ (show j ∈ clsIds
        { st with pos := Function.update st.pos s (st.pos t + 1/2) }
        (st.cls s) from hj),
      Nat.cast_lt]
    rcases eq_or_ne i j with rfl | hij
    · simp
    · rw [rankIn_lt_iff _ _ (show i ∈ clsIds
          { st with pos := Function.update st.pos s (st.pos t + 1/2) }
          (st.cls s) from hi)
        (show j ∈ clsIds
          { st with pos := Function.update st.pos s (st.pos t + 1/2) }
          (st.cls s) from hj) hij]
      unfold sortsBefore
      dsimp only
      rw [Function.update_noteq his, Function.update_noteq hjs]
      constructor
      · intro hb
        rcases hb with hlt | ⟨heq, _⟩
        · exact hlt
        · have := hd.2 i hi j hj heq
          exact absurd this hij
      · exact fun h => Or.inl h

/-- Witness for C7: on the concrete two-member state, moving roll 3 right
after roll 2 leaves the moved member exactly one position after the target. -/
theorem move_display_after_dense_spec_witness :
    (move_display_after c6St 3 2).toOption.map (fun st1 => st1.pos 2) =
      (move_display_after c6St 3 2).toOption.map (fun st1 => st1.pos 1 + 1) := by
  obtain ⟨st1, h1, _, hpos, _, _⟩ := move_display_after_dense_spec c6St 3 2 2 1
    (by decide) (by decide) (by decide) rfl (by decide)
  rw [h1]
  show some (st1.pos 2) = some (st1.pos 1 + 1)
  exact congrArg some hpos

/-- Witness for the loop-body frame lemma: the concrete record (phone and
major present, everything else absent) against the one-member store. -/
theorem import_update_only_present_columns_witness :
    (importRecord c9DB 1 true c9Rec).members =
      c9DB.members.map (fun x =>
        if x.id = c9Row.id then
          applyImportUpdate c9Rec (stripStr c9Rec.first_name)
            (stripStr c9Rec.last_name) x
        else x) ∧
    (applyImportUpdate c9Rec (stripStr c9Rec.first_name)
        (stripStr c9Rec.last_name) c9Row).roll_number = c9Row.roll_number ∧
    (applyImportUpdate c9Rec (stripStr c9Rec.first_name)
        (stripStr c9Rec.last_name) c9Row).join_order = c9Row.join_order ∧
    (applyImportUpdate c9Rec (stripStr c9Rec.first_name)
        (stripStr c9Rec.last_name) c9Row).su_email = c9Row.su_email := by
  have h := import_update_only_present_columns c9DB 1 true c9Rec c9Row
    (by decide) (by decide)
  exact ⟨h.1, (h.2.2 c9Row).1, (h.2.2 c9Row).2.2.1,
    (h.2.2 c9Row).2.2.2.2.2.2.2.2.2.2.1 rfl⟩

/-- C9: the import can never perform the matched-record update the claim
describes, because `import_roster_dataframe` begins by calling
`_normalize_headers` (db.py line 477), whose body is a Python `SyntaxError` —
the module fails to load and every import call dies before the per-record
loop.  Evaluated here at a store and record that the loop body, were it
reachable, would have matched and updated. -/
theorem import_roster_dataframe_never_runs :
    import_roster_dataframe c9DB 1 true [c9Rec] =
      .error "SyntaxError: invalid syntax (db.py, line 477)" := rfl

end Roster
